import Mathlib

/-!
Shallow embedding of the bulk topic-prediction pipeline of
`src/bulk/wikidata_ids_to_topics_dumps.py`, together with theorems that
settle the specification's claims about it.

Probabilities (fastText scores, thresholds) are modelled as rationals.
Python dictionaries that map labels to probabilities are modelled as
association lists in insertion order; `dlookup` is `d[k]` (read) and
`dictSet` is `d[k] = v` (update-in-place or append).  The external
fastText classifier is an abstract parameter `predict : String → Dist`,
and the JSON parser used by the record source is an abstract parameter
`parse : String → Option α`, matching the spec's treatment of both as
external capabilities.
-/

namespace WdTopics

/-- A label→probability mapping (Python dict of floats, insertion order). -/
abbrev Dist := List (String × ℚ)

/-- Python dict read `d[k]`: the value at the (first) entry with key `k`. -/
def dlookup (d : Dist) (k : String) : Option ℚ :=
  match d with
  | [] => none
  | (k', v) :: rest => if k' = k then some v else dlookup rest k

/-- Python dict write `d[k] = v`: replace the value at key `k` in place,
or append a fresh entry when the key is absent. -/
def dictSet (d : Dist) (k : String) (v : ℚ) : Dist :=
  match d with
  | [] => [(k, v)]
  | (k', v') :: rest => if k' = k then (k, v) :: rest else (k', v') :: dictSet rest k v

/-- `s.startswith(p)` (Python). -/
def strStartsWith (s p : String) : Bool :=
  p.toList.isPrefixOf s.toList

/-- `s.endswith(p)` (Python). -/
def strEndsWith (s p : String) : Bool :=
  p.toList.isSuffixOf s.toList

/-- Python slice `s[:-n]`: everything but the last `n` characters. -/
def strDropRight (s : String) (n : Nat) : String :=
  String.mk (s.toList.take (s.toList.length - n))

/-- `lbl.replace('__label__', '')` at character level: remove every
(left-to-right, non-overlapping) occurrence of the 9-character fastText
label tag, exactly as Python's `str.replace` does. -/
def removeLabelTags : List Char → List Char
  | '_' :: '_' :: 'l' :: 'a' :: 'b' :: 'e' :: 'l' :: '_' :: '_' :: rest => removeLabelTags rest
  | c :: cs => c :: removeLabelTags cs
  | [] => []

/-- `s.split('.')[0]` at character level: the characters before the first
dot (the whole string when there is no dot). -/
def takeUntilDot : List Char → List Char
  | [] => []
  | c :: cs => if c = '.' then [] else c :: takeUntilDot cs

/-- Source `ft_to_toplevel` (lines 105-107):
`fasttext_lbl.replace('__label__','').split('.')[0]`. -/
def ft_to_toplevel (fasttext_lbl : String) : String :=
  String.mk (takeUntilDot (removeLabelTags fasttext_lbl.toList))

/-- `l.replace("__label__", "")` used when formatting output (line 94). -/
def stripLabelTag (l : String) : String :=
  String.mk (removeLabelTags l.toList)

/-- Python `' '.join(xs)`. -/
def joinSp : List String → String
  | [] => ""
  | [x] => x
  | x :: y :: rest => x ++ " " ++ joinSp (y :: rest)

/-- Source `tuple_to_ft_format` (lines 109-111) applied to one concrete
ordering of the claim tuples: `' '.join([' '.join(c) for c in ordering])`.
The `sample(claims_tuples, len(claims_tuples))` shuffle is modelled by
quantifying over permutations of the tuple list. -/
def tuple_to_ft_format (ordering : List (List String)) : String :=
  joinSp (ordering.map joinSp)

/-! ### Score adjustment (source `main`, lines 67-80) -/

/-- The literal label key used at source lines 73-74. -/
def cultureLbl : String := "__label__Culture.Language_and_literature"

/-- Source lines 76-80: for every key of `results` that starts with
`__label__Geography`, set its value to `max(0, value - 0.501)`.  The key
list is collected first, then each key is updated in place; the lookup
inside the fold can never miss (the keys come from the dict itself), so
its `getD 0` default is dead. -/
def geoAdjust (d : Dist) : Dist :=
  let geo_keys := (d.map Prod.fst).filter (fun k => strStartsWith k "__label__Geography")
  geo_keys.foldl (fun r l => dictSet r l (max 0 ((dlookup r l).getD 0 - 0.501))) d

/-- Source lines 68-70: `results['Compilation.List_Disambig'] = 1` when
the item is a disambiguation page or list. -/
def adjustDisamb (results : Dist) (disamb_list : Bool) : Dist :=
  if disamb_list then dictSet results "Compilation.List_Disambig" 1 else results

/-- Source lines 71-75: when the item is a human, reduce the culture
label's score by 0.501 (floored at 0) and set `results['Person'] = 1`.
The read `results[l]` at line 74 raises `KeyError` in Python when the key
is absent, so this stage returns `none` in that case. -/
def adjustHuman (r1 : Dist) (human : Bool) : Option Dist :=
  if human then
    (dlookup r1 cultureLbl).map (fun v =>
      dictSet (dictSet r1 cultureLbl (max 0 (v - 0.501))) "Person" 1)
  else some r1

/-- Source lines 76-80: the geography reduction runs when the item has no
coordinate claim. -/
def adjustGeo (r2 : Dist) (has_coords : Bool) : Dist :=
  if !has_coords then geoAdjust r2 else r2

/-- Source lines 67-80, the per-item heuristic adjustment of the raw
classifier distribution: the three rules in source order. -/
def adjust (results : Dist) (disamb_list human has_coords : Bool) : Option Dist :=
  (adjustHuman (adjustDisamb results disamb_list) human).map (fun r2 => adjustGeo r2 has_coords)

/-! ### Top-level aggregation (source `main`, lines 87-91) -/

/-- Source line 90, one loop iteration:
`hlc_results[hlc] = hlc_results.get(hlc, 1) * (1 - results[l])`. -/
def aggStep (h : Dist) (lp : String × ℚ) : Dist :=
  dictSet h (ft_to_toplevel lp.1) (((dlookup h (ft_to_toplevel lp.1)).getD 1) * (1 - lp.2))

/-- Source lines 87-91: fold every entry of the adjusted distribution into
a running product per top-level category, then flip each accumulated
product `p` to `1 - p`. -/
def aggregate (results : Dist) : Dist :=
  (results.foldl aggStep []).map (fun cp => (cp.1, 1 - cp.2))

/-- The product `Π_(label under c) (1 - p(label))` over the entries of `d`
whose top-level category is `c`. -/
def prodUnder (c : String) (d : Dist) : ℚ :=
  ((d.filter (fun lp => ft_to_toplevel lp.1 = c)).map (fun lp => 1 - lp.2)).prod

/-! ### Result formatting and thresholding (source `main`, lines 94-98) -/

/-- Python `round(q, 4)` modelled over ℚ: round `q * 10^4` to the nearest
integer, ties to even (banker's rounding), divide back. -/
def roundHalfEven (q : ℚ) : ℤ :=
  if q - ⌊q⌋ < 1/2 then ⌊q⌋
  else if q - ⌊q⌋ > 1/2 then ⌊q⌋ + 1
  else if ⌊q⌋ % 2 = 0 then ⌊q⌋ else ⌊q⌋ + 1

def roundTo4 (q : ℚ) : ℚ := (roundHalfEven (q * 10000) : ℚ) / 10000

/-- Stable descending insertion by probability: an element moves past
exactly the entries with a strictly smaller value, so equal values keep
their original relative order — the semantics of Python's stable
`sorted(..., key=results.get, reverse=True)`. -/
def insertDesc (x : String × ℚ) : Dist → Dist
  | [] => [x]
  | y :: ys => if x.2 ≤ y.2 then y :: insertDesc x ys else x :: y :: ys

def sortDescByVal : Dist → Dist
  | [] => []
  | x :: xs => insertDesc x (sortDescByVal xs)

/-- Source line 94: sort the adjusted distribution descending by value,
strip the `__label__` tag, round to 4 decimal digits. -/
def sortedRes (adjusted : Dist) : Dist :=
  (sortDescByVal adjusted).map (fun lp => (stripLabelTag lp.1, roundTo4 lp.2))

/-- Source line 95: the top-level list, sorted and rounded (keys carry no
tag, so nothing is stripped). -/
def sortedHlc (hlc : Dist) : Dist :=
  (sortDescByVal hlc).map (fun lp => (lp.1, roundTo4 lp.2))

/-- Source lines 96-98: when the threshold is positive, keep exactly the
entries whose (already rounded) probability is strictly above it. -/
def thresholdFilter (threshold : ℚ) (l : Dist) : Dist :=
  if threshold > 0 then l.filter (fun lp => threshold < lp.2) else l

/-! ### Claim extraction (source `loop_through_wd_dump`, lines 151-178) -/

/-- One statement object, reduced to the three field accesses the source
performs; `none` models a missing field (Python `KeyError`, caught by the
per-statement `except`). -/
structure Statement where
  type : Option String
  datatype : Option String
  valueId : Option String
deriving DecidableEq

/-- Source lines 159-163: a statement contributes a value id exactly when
`statement['type'] == 'statement'`, `statement['mainsnak']['datatype'] ==
'wikibase-item'`, and the nested `datavalue.value.id` access succeeds; any
failure or non-match contributes nothing (exception caught / condition
false). -/
def statementValue (st : Statement) : Option String :=
  match st.type, st.datatype with
  | some "statement", some "wikibase-item" => st.valueId
  | _, _ => none

/-- The `(property, val)` tuples one property's statement list appends
(source line 162), in statement order. -/
def propertyTuples (property : String) (sts : List Statement) : List (List String) :=
  sts.filterMap (fun st => (statementValue st).map (fun val => [property, val]))

/-- Source `included` flag: some statement of the property qualified. -/
def propertyIncluded (sts : List Statement) : Bool :=
  sts.any (fun st => (statementValue st).isSome)

/-- Source lines 155-172: per property, its qualifying tuples, or the bare
`(property,)` tuple when none qualified, concatenated in claim order. -/
def claimTuples (claims : List (String × List Statement)) : List (List String) :=
  claims.flatMap (fun ps => if propertyIncluded ps.2 then propertyTuples ps.1 ps.2 else [[ps.1]])

def disamb_list_vals : List String := ["Q4167410", "Q13406463"]

/-- Source lines 164-166 and 175-176: `disamb_list` is set by a qualifying
`P31` value in `disamb_list_vals`, or by a bare (no qualifying value)
`P360` property. -/
def disambFlag (claims : List (String × List Statement)) : Bool :=
  claims.any (fun ps =>
    (ps.1 = "P31" && ps.2.any (fun st =>
        match statementValue st with
        | some val => disamb_list_vals.contains val
        | none => false))
    || (ps.1 = "P360" && !propertyIncluded ps.2))

/-- Source lines 164, 167-168: `human` is set by a qualifying `P31` value
equal to `Q5` (the `elif` only runs when the value is not a
disambiguation/list id). -/
def humanFlag (claims : List (String × List Statement)) : Bool :=
  claims.any (fun ps =>
    ps.1 = "P31" && ps.2.any (fun st =>
      match statementValue st with
      | some val => !disamb_list_vals.contains val && val = "Q5"
      | none => false))

/-- Source lines 171-174: `has_coords` is set only in the `not included`
branch — a `P625` property none of whose statements qualified. -/
def hasCoordsFlag (claims : List (String × List Statement)) : Bool :=
  claims.any (fun ps => ps.1 = "P625" && !propertyIncluded ps.2)

/-- Source lines 177-178: substitute the sentinel when no tuple at all was
extracted. -/
def finalTuples (claims : List (String × List Statement)) : List (List String) :=
  let ct := claimTuples claims
  if ct.isEmpty then [["<NOCLAIM>"]] else ct

/-! ### Item filtering (source `loop_through_wd_dump`, lines 141-149) -/

/-- The fields of a parsed dump record that the filtering step reads. -/
structure RawItem where
  id : Option String
  sitelinks : List String
  claims : List (String × List Statement)

/-- Source lines 144-145: the title-dict keys — sitelink keys that end in
`wiki`, are neither `commonswiki` nor `specieswiki`, with the 4-character
suffix stripped (`l[:-4]`). -/
def titleKeys (item : RawItem) : List String :=
  (item.sitelinks.filter (fun l =>
      strEndsWith l "wiki" && !(l = "commonswiki") && !(l = "specieswiki"))).map
    (fun l => strDropRight l 4)

/-- Source lines 141-149: the acceptance decision for one parsed item,
given the optional QID allow-set and the optional site filter.  (`continue`
on: id not in the allow-set; empty title dict; empty intersection with the
site filter.) -/
def accepts (qidsFilter : Option (List String)) (sitesFilter : Option (List String))
    (item : RawItem) : Bool :=
  (match qidsFilter with
   | some qs =>
     match item.id with
     | some q => qs.contains q
     | none => false
   | none => true)
  && !(titleKeys item).isEmpty
  && (match sitesFilter with
      | some ss => (titleKeys item).any (fun t => ss.contains t)
      | none => true)

/-! ### Record source (source `loop_through_wd_dump`, lines 127-136) -/

/-- Source lines 129-136: one line's parse attempt — `json.loads(line[:-2])`
first, and only if that raises, `json.loads(line)`. -/
def parseAttempt {α : Type} (parse : String → Option α) (line : String) : Option α :=
  match parse (strDropRight line 2) with
  | some v => some v
  | none => parse line

/-- The parse procedure the specification describes instead: the line
as-is first and, on failure, the line with its last (one) character
stripped.  Modelled from the spec for comparison with `parseAttempt`. -/
def parseAttemptSpec {α : Type} (parse : String → Option α) (line : String) : Option α :=
  match parse line with
  | some v => some v
  | none => parse (strDropRight line 1)

/-- Source lines 128-136 as a pure fold over the line stream: the list of
`(line_number, parsed_record)` successes together with the list of
`(line_number, line)` failures that were logged and skipped.  Numbering
starts at 1 (`enumerate(fin, start=1)`); a failed line never stops the
recursion over the remaining lines. -/
def recordSourceFrom {α : Type} (parse : String → Option α) :
    Nat → List String → List (Nat × α) × List (Nat × String)
  | _, [] => ([], [])
  | n, line :: rest =>
    let out := recordSourceFrom parse (n + 1) rest
    match parseAttempt parse line with
    | some v => ((n, v) :: out.1, out.2)
    | none => (out.1, (n, line) :: out.2)

def recordSource {α : Type} (parse : String → Option α) (lines : List String) :
    List (Nat × α) × List (Nat × String) :=
  recordSourceFrom parse 1 lines

def digitVal (c : Char) : Option Nat :=
  if '0' ≤ c ∧ c ≤ '9' then some (c.toNat - 48) else none

/-- A concrete parser used to instantiate the abstract `parse` parameter
on concrete inputs: it accepts exactly the strings that are a bare run of
decimal digits, the JSON documents of the form `12`.  It agrees with
`json.loads` on every input it is applied to below (`"12"` parses to 12;
`"12,"`, `"12,\n"`, `"b"`, `"bad"` are rejected by both). -/
def parseIntLit (s : String) : Option Nat :=
  match s.data with
  | [] => none
  | cs => cs.foldl (fun acc c =>
      match acc, digitVal c with
      | some a, some d => some (a * 10 + d)
      | _, _ => none) (some 0)

/-! ### Whitespace tokenization and the per-item pipeline -/

/-- The whitespace-separated tokens of a string (empty tokens dropped),
used to state order-insensitivity of the external classifier. -/
def wsTokensAux : List Char → List Char → List String
  | [], cur => if cur.isEmpty then [] else [String.mk cur.reverse]
  | c :: cs, cur =>
    if c = ' ' then
      if cur.isEmpty then wsTokensAux cs [] else String.mk cur.reverse :: wsTokensAux cs []
    else wsTokensAux cs (c :: cur)

def wsTokens (s : String) : List String := wsTokensAux s.data []

/-- The record written for one item (source lines 94-99), minus the raw
JSON serialization. -/
structure OutputRecord where
  qid : Option String
  titles : List (String × Option String)
  predicted_mid_labels : Dist
  predicted_top_labels : Dist
deriving DecidableEq

/-- Source lines 65-99: everything `main` does to one yielded item, from
the classifier call on the formatted claim string through adjustment,
aggregation, sorting, rounding and thresholding.  `ordering` is the
shuffled claim-tuple list produced by `tuple_to_ft_format`'s `sample`;
`none` models the `KeyError` crash of an adjustment on a distribution
missing the culture label. -/
def processItem (predict : String → Dist) (threshold : ℚ) (qid : Option String)
    (titles : List (String × Option String)) (ordering : List (List String))
    (disamb_list human has_coords : Bool) : Option OutputRecord :=
  let results := predict (tuple_to_ft_format ordering)
  (adjust results disamb_list human has_coords).map (fun adjusted =>
    { qid := qid
      titles := titles
      predicted_mid_labels := thresholdFilter threshold (sortedRes adjusted)
      predicted_top_labels := thresholdFilter threshold (sortedHlc (aggregate adjusted)) })

/-! ### Dictionary lemmas -/

theorem dlookup_dictSet_self (d : Dist) (k : String) (v : ℚ) :
    dlookup (dictSet d k v) k = some v := by
  induction d with
  | nil => simp [dictSet, dlookup]
  | cons kv rest ih =>
    obtain ⟨a, b⟩ := kv
    by_cases h : a = k
    · simp [dictSet, dlookup, h]
    · simp [dictSet, dlookup, h, ih]

theorem dlookup_dictSet_ne (d : Dist) {k' k : String} (h : k' ≠ k) (v : ℚ) :
    dlookup (dictSet d k' v) k = dlookup d k := by
  induction d with
  | nil => simp [dictSet, dlookup, h]
  | cons kv rest ih =>
    obtain ⟨a, b⟩ := kv
    by_cases ha : a = k'
    · subst ha; simp [dictSet, dlookup, h]
    · simp [dictSet, dlookup, ha, ih]

theorem dlookup_foldl_geo (k : String) :
    ∀ (ks : List String) (d : Dist), (∀ l ∈ ks, l ≠ k) →
      dlookup (ks.foldl (fun r l => dictSet r l (max 0 ((dlookup r l).getD 0 - 0.501))) d) k
        = dlookup d k
  | [], _, _ => rfl
  | l :: ks, d, h => by
    rw [List.foldl_cons,
      dlookup_foldl_geo k ks _ (fun x hx => h x (List.mem_cons_of_mem _ hx)),
      dlookup_dictSet_ne _ (h l (List.mem_cons_self _ _)) _]

theorem dlookup_geoAdjust {k : String} (hk : strStartsWith k "__label__Geography" = false)
    (d : Dist) : dlookup (geoAdjust d) k = dlookup d k := by
  simp only [geoAdjust]
  apply dlookup_foldl_geo
  intro l hl he
  subst he
  have := (List.mem_filter.mp hl).2
  rw [hk] at this
  exact Bool.false_ne_true this

/-! ### Adjustment-stage lemmas -/

theorem dlookup_adjustDisamb_ne (results : Dist) (dl : Bool) {k : String}
    (h : k ≠ "Compilation.List_Disambig") :
    dlookup (adjustDisamb results dl) k = dlookup results k := by
  cases dl
  · rfl
  · simpa [adjustDisamb] using dlookup_dictSet_ne results (Ne.symm h) 1

theorem dlookup_adjustDisamb_self (results : Dist) :
    dlookup (adjustDisamb results true) "Compilation.List_Disambig" = some 1 := by
  simp [adjustDisamb, dlookup_dictSet_self]

theorem adjustHuman_some_ne {r1 r2 : Dist} {human : Bool}
    (h : adjustHuman r1 human = some r2) {k : String}
    (hk1 : k ≠ "Person") (hk2 : k ≠ cultureLbl) :
    dlookup r2 k = dlookup r1 k := by
  cases human
  · simp only [adjustHuman, Bool.false_eq_true, if_false, Option.some.injEq] at h
    subst h; rfl
  · simp only [adjustHuman, if_true, Option.map_eq_some'] at h
    obtain ⟨v, _, hr⟩ := h
    subst hr
    rw [dlookup_dictSet_ne _ (Ne.symm hk1) _, dlookup_dictSet_ne _ (Ne.symm hk2) _]

theorem adjustHuman_true_person {r1 r2 : Dist}
    (h : adjustHuman r1 true = some r2) :
    dlookup r2 "Person" = some 1 := by
  simp only [adjustHuman, if_true, Option.map_eq_some'] at h
  obtain ⟨v, _, hr⟩ := h
  subst hr
  exact dlookup_dictSet_self _ _ _

theorem adjustHuman_true_culture {r1 r2 : Dist} {v : ℚ}
    (hv : dlookup r1 cultureLbl = some v)
    (h : adjustHuman r1 true = some r2) :
    dlookup r2 cultureLbl = some (max 0 (v - 0.501)) := by
  simp only [adjustHuman, if_true, Option.map_eq_some'] at h
  obtain ⟨w, hw, hr⟩ := h
  subst hr
  rw [hv] at hw
  cases hw
  rw [dlookup_dictSet_ne _ (by decide) _, dlookup_dictSet_self]

theorem dlookup_adjustGeo {k : String} (hk : strStartsWith k "__label__Geography" = false)
    (r2 : Dist) (hc : Bool) : dlookup (adjustGeo r2 hc) k = dlookup r2 k := by
  cases hc
  · simp [adjustGeo, dlookup_geoAdjust hk]
  · rfl

/-! ### Claim C1 -/

/-- C1: for every item flagged `is_disambiguation_or_list` and every raw
classifier distribution, the adjusted distribution (when the adjustment
completes) assigns probability exactly 1 to the key
`Compilation.List_Disambig` — a dictionary overwrite, not a blend: the
conclusion holds whatever probability the raw distribution carried there. -/
theorem wd_C1_disamb_forces_one (results : Dist) (human has_coords : Bool) (d : Dist)
    (hadj : adjust results true human has_coords = some d) :
    dlookup d "Compilation.List_Disambig" = some 1 := by
  simp only [adjust, Option.map_eq_some'] at hadj
  obtain ⟨r2, hr2, hd⟩ := hadj
  subst hd
  rw [dlookup_adjustGeo (by decide) _ _,
    adjustHuman_some_ne hr2 (by decide) (by decide),
    dlookup_adjustDisamb_self]

theorem wd_C1_witness :
    dlookup [("__label__X", (0:ℚ)), ("Compilation.List_Disambig", 1)]
      "Compilation.List_Disambig" = some 1 :=
  wd_C1_disamb_forces_one [("__label__X", 0)] false true _ (by decide)

/-! ### Claim C2 -/

/-- C2: for every item flagged `is_human`, the adjusted distribution
assigns the key `Person` probability exactly 1, and the
`__label__Culture.Language_and_literature` key exactly
`max 0 (original - 0.501)`, whatever the other two flags are. -/
theorem wd_C2_human_adjust (results : Dist) (disamb has_coords : Bool) (v : ℚ) (d : Dist)
    (hv : dlookup results cultureLbl = some v)
    (hadj : adjust results disamb true has_coords = some d) :
    dlookup d "Person" = some 1 ∧ dlookup d cultureLbl = some (max 0 (v - 0.501)) := by
  simp only [adjust, Option.map_eq_some'] at hadj
  obtain ⟨r2, hr2, hd⟩ := hadj
  subst hd
  have hv1 : dlookup (adjustDisamb results disamb) cultureLbl = some v := by
    rw [dlookup_adjustDisamb_ne _ _ (by decide)]; exact hv
  refine ⟨?_, ?_⟩
  · rw [dlookup_adjustGeo (by decide) _ _]
    exact adjustHuman_true_person hr2
  · rw [dlookup_adjustGeo (by decide) _ _]
    exact adjustHuman_true_culture hv1 hr2

theorem wd_C2_witness :
    dlookup [(cultureLbl, max 0 ((0.9:ℚ) - 0.501)), ("Person", 1)] "Person" = some 1 ∧
    dlookup [(cultureLbl, max 0 ((0.9:ℚ) - 0.501)), ("Person", 1)] cultureLbl
      = some (max 0 ((0.9:ℚ) - 0.501)) :=
  wd_C2_human_adjust [(cultureLbl, 0.9)] false true 0.9 _ rfl rfl

/-! ### Claim C3 -/

/-- C3 counterexample: on the line `"12,\n"` (a JSON numeral with the
dump's trailing `,\n` framing) the code's attempt order — strip the last
two characters first, retry the raw line second — parses and keeps the
line, while the procedure the claim describes — raw line first, then
strip one character — fails both attempts and would skip it. -/
theorem wd_C3_counterexample :
    recordSource parseIntLit ["12,\n"] = ([(1, 12)], []) ∧
    parseAttempt parseIntLit "12,\n" = some 12 ∧
    parseAttemptSpec parseIntLit "12,\n" = none := by
  decide

/-- C3 amended: for every archive line, the record source first attempts
to parse the line with its last TWO characters stripped and, on parse
failure, retries the line AS-IS; only when both attempts fail is the line
recorded (logged) with its line number and skipped, and the remaining
lines are still processed. -/
theorem wd_C3_strip_first_then_raw {α : Type} (parse : String → Option α) (n : Nat)
    (line : String) (rest : List String) :
    (∀ v, parse (strDropRight line 2) = some v →
      recordSourceFrom parse n (line :: rest)
        = ((n, v) :: (recordSourceFrom parse (n + 1) rest).1,
           (recordSourceFrom parse (n + 1) rest).2)) ∧
    (parse (strDropRight line 2) = none → ∀ v, parse line = some v →
      recordSourceFrom parse n (line :: rest)
        = ((n, v) :: (recordSourceFrom parse (n + 1) rest).1,
           (recordSourceFrom parse (n + 1) rest).2)) ∧
    (parse (strDropRight line 2) = none → parse line = none →
      recordSourceFrom parse n (line :: rest)
        = ((recordSourceFrom parse (n + 1) rest).1,
           (n, line) :: (recordSourceFrom parse (n + 1) rest).2)) := by
  refine ⟨fun v hv => ?_, fun h1 v hv => ?_, fun h1 h2 => ?_⟩
  · simp [recordSourceFrom, parseAttempt, hv]
  · simp [recordSourceFrom, parseAttempt, h1, hv]
  · simp [recordSourceFrom, parseAttempt, h1, h2]

theorem wd_C3_witness :
    recordSourceFrom parseIntLit 1 ["bad", "12,\n"] = ([(2, 12)], [(1, "bad")]) :=
  ((wd_C3_strip_first_then_raw parseIntLit 1 "bad" ["12,\n"]).2.2 (by decide)
    (by decide)).trans (by decide)

/-! ### Claim C4 -/

/-- C4 counterexample: an item whose identifier is in the allow-set but
that has no sitelinks is rejected, so allow-set membership is not the
sole acceptance condition. -/
theorem wd_C4_counterexample :
    accepts (some ["Q42"]) none { id := some "Q42", sitelinks := [], claims := [] } = false ∧
    "Q42" ∈ ["Q42"] := by
  decide

/-- C4 amended: in allow-set mode (no site filter configured), an item is
accepted iff its identifier is a member of the allow-set AND its filtered
title map is non-empty (it has at least one qualifying sitelink). -/
theorem wd_C4_allowset_requires_titles (qs : List String) (item : RawItem) :
    accepts (some qs) none item = true ↔
      (∃ q, item.id = some q ∧ q ∈ qs) ∧ titleKeys item ≠ [] := by
  obtain ⟨id?, sl, cl⟩ := item
  cases id? with
  | none => simp [accepts]
  | some q => simp [accepts, List.isEmpty_iff]

theorem wd_C4_witness :
    accepts (some ["Q42"]) none
      { id := some "Q42", sitelinks := ["enwiki"], claims := [] } = true :=
  (wd_C4_allowset_requires_titles ["Q42"] _).mpr ⟨⟨"Q42", rfl, by decide⟩, by decide⟩

/-! ### Claim C5 -/

/-- C5 counterexample: a `P625` property whose statement qualifies (a
`wikibase-item`-typed statement producing a `(P625, Q1)` tuple) does NOT
set `has_coordinates`, although the property is present in the claim map —
the flag is only set in the bare-tuple branch. -/
theorem wd_C5_counterexample :
    hasCoordsFlag
        [("P625", [{ type := some "statement", datatype := some "wikibase-item",
                     valueId := some "Q1" }])] = false ∧
    "P625" ∈ ([("P625", [{ type := some "statement", datatype := some "wikibase-item",
                           valueId := some "Q1" }])].map
        (Prod.fst (α := String) (β := List Statement))) := by
  decide

/-- C5 amended: `has_coordinates` is set iff the claim map contains a
`P625` property none of whose statements contributed a qualifying
`(property, value)` tuple — i.e. `P625` is present only as a bare tuple. -/
theorem wd_C5_has_coords_iff (claims : List (String × List Statement)) :
    hasCoordsFlag claims = true ↔
      ∃ ps ∈ claims, ps.1 = "P625" ∧ ∀ st ∈ ps.2, statementValue st = none := by
  have hnone : ∀ o : Option String, (¬(o.isSome = true)) = (o = none) := fun o => by
    cases o <;> simp
  simp only [hasCoordsFlag, List.any_eq_true, Bool.and_eq_true, decide_eq_true_eq,
    Bool.not_eq_true', propertyIncluded, List.any_eq_false, hnone]

theorem wd_C5_witness :
    hasCoordsFlag [("P625", ([] : List Statement))] = true :=
  (wd_C5_has_coords_iff [("P625", [])]).mpr ⟨("P625", []), by decide, rfl, by simp⟩

/-! ### Claim C8 -/

/-- C8: the final claim-tuple list of an item is never empty, and when the
extraction produced zero tuples it is exactly the sentinel
`[("<NOCLAIM>",)]`, whose formatted token sequence is the non-empty string
`"<NOCLAIM>"`. -/
theorem wd_C8_sentinel (claims : List (String × List Statement)) :
    finalTuples claims ≠ [] ∧
      (claimTuples claims = [] →
        finalTuples claims = [["<NOCLAIM>"]] ∧
          tuple_to_ft_format (finalTuples claims) = "<NOCLAIM>") := by
  unfold finalTuples
  cases hct : claimTuples claims with
  | nil => simp [tuple_to_ft_format, joinSp]
  | cons t ts => simp

theorem wd_C8_witness :
    finalTuples ([] : List (String × List Statement)) = [["<NOCLAIM>"]] ∧
      tuple_to_ft_format (finalTuples ([] : List (String × List Statement)))
        = "<NOCLAIM>" :=
  (wd_C8_sentinel []).2 rfl

/-! ### Aggregation lemmas -/

theorem prodUnder_nil (c : String) : prodUnder c [] = 1 := rfl

theorem prodUnder_cons (c : String) (lp : String × ℚ) (d : Dist) :
    prodUnder c (lp :: d)
      = if ft_to_toplevel lp.1 = c then (1 - lp.2) * prodUnder c d else prodUnder c d := by
  simp only [prodUnder, List.filter_cons]
  by_cases h : ft_to_toplevel lp.1 = c
  · simp [h]
  · simp [h]

theorem dlookup_map_one_sub (l : Dist) (c : String) :
    dlookup (l.map (fun cp => (cp.1, 1 - cp.2))) c = (dlookup l c).map (fun v => 1 - v) := by
  induction l with
  | nil => rfl
  | cons kv rest ih =>
    obtain ⟨a, b⟩ := kv
    by_cases h : a = c
    · simp [dlookup, h]
    · simp [dlookup, h, ih]

theorem foldl_aggStep_some :
    ∀ (rest : Dist) (h : Dist) (c : String) (v : ℚ), dlookup h c = some v →
      dlookup (rest.foldl aggStep h) c = some (v * prodUnder c rest)
  | [], h, c, v, hv => by simpa [prodUnder_nil] using hv
  | lp :: rest, h, c, v, hv => by
    rw [List.foldl_cons, prodUnder_cons]
    by_cases hc : ft_to_toplevel lp.1 = c
    · have hstep : dlookup (aggStep h lp) c = some (v * (1 - lp.2)) := by
        rw [aggStep, hc, hv]
        exact dlookup_dictSet_self _ _ _
      rw [foldl_aggStep_some rest _ c _ hstep, if_pos hc, mul_assoc,
        mul_comm (1 - lp.2) (prodUnder c rest), ← mul_assoc, mul_assoc]
    · have hstep : dlookup (aggStep h lp) c = some v := by
        rw [aggStep, dlookup_dictSet_ne _ hc _]
        exact hv
      rw [foldl_aggStep_some rest _ c _ hstep, if_neg hc]

theorem foldl_aggStep_none :
    ∀ (rest : Dist) (h : Dist) (c : String), dlookup h c = none →
      dlookup (rest.foldl aggStep h) c
        = if c ∈ rest.map (fun lp => ft_to_toplevel lp.1) then some (prodUnder c rest) else none
  | [], h, c, hv => by simpa using hv
  | lp :: rest, h, c, hv => by
    rw [List.foldl_cons, prodUnder_cons, List.map_cons]
    by_cases hc : ft_to_toplevel lp.1 = c
    · have hstep : dlookup (aggStep h lp) c = some (1 * (1 - lp.2)) := by
        rw [aggStep, hc, hv]
        exact dlookup_dictSet_self _ _ _
      rw [foldl_aggStep_some rest _ c _ hstep, if_pos hc,
        if_pos (List.mem_cons.mpr (Or.inl hc.symm)), one_mul]
    · have hstep : dlookup (aggStep h lp) c = none := by
        rw [aggStep, dlookup_dictSet_ne _ hc _]
        exact hv
      rw [foldl_aggStep_none rest _ c hstep, if_neg hc]
      by_cases hm : c ∈ rest.map (fun lp => ft_to_toplevel lp.1)
      · rw [if_pos hm, if_pos (List.mem_cons.mpr (Or.inr hm))]
      · rw [if_neg hm, if_neg (by
          intro hmem
          rcases List.mem_cons.mp hmem with he | hm2
          · exact hc he.symm
          · exact hm hm2)]

theorem aggregate_dlookup (d : Dist) (c : String) :
    dlookup (aggregate d) c
      = if c ∈ d.map (fun lp => ft_to_toplevel lp.1)
        then some (1 - prodUnder c d) else none := by
  rw [aggregate, dlookup_map_one_sub, foldl_aggStep_none d [] c rfl]
  by_cases hm : c ∈ d.map (fun lp => ft_to_toplevel lp.1)
  · rw [if_pos hm, if_pos hm]; rfl
  · rw [if_neg hm, if_neg hm]; rfl

/-! ### Claim C7 -/

/-- C7: for every adjusted distribution, the aggregated probability of
each top-level category `c` that occurs equals `1 - Π (1 - p)` over the
entries whose top-level category is `c` (and absent categories get no
entry); in particular `STEM.Technology = 0.6` and `STEM.Engineering = 0.4`
aggregate to `STEM = 0.76`. -/
theorem wd_C7_aggregation_identity :
    (∀ (results : Dist) (c : String),
      dlookup (aggregate results) c
        = if c ∈ results.map (fun lp => ft_to_toplevel lp.1)
          then some (1 - prodUnder c results) else none) ∧
    dlookup (aggregate [("__label__STEM.Technology", 0.6), ("__label__STEM.Engineering", 0.4)])
      "STEM" = some 0.76 := by
  refine ⟨aggregate_dlookup, ?_⟩
  simp +decide [aggregate, aggStep, dictSet, dlookup, ft_to_toplevel, removeLabelTags,
    takeUntilDot]
  norm_num

/-! ### Claim C10 -/

theorem list_prod_bounds :
    ∀ (qs : List ℚ), (∀ q ∈ qs, 0 ≤ q ∧ q ≤ 1) → 0 ≤ qs.prod ∧ qs.prod ≤ 1
  | [], _ => by simp
  | q :: qs, h => by
    have hq := h q (List.mem_cons_self _ _)
    have ih := list_prod_bounds qs (fun x hx => h x (List.mem_cons_of_mem _ hx))
    rw [List.prod_cons]
    exact ⟨mul_nonneg hq.1 ih.1, mul_le_one₀ hq.2 ih.1 ih.2⟩

theorem list_prod_le_mem :
    ∀ (qs : List ℚ) (q : ℚ), q ∈ qs → (∀ x ∈ qs, 0 ≤ x ∧ x ≤ 1) → qs.prod ≤ q
  | [], q, hq, _ => absurd hq (List.not_mem_nil q)
  | x :: qs, q, hq, h => by
    rw [List.prod_cons]
    rcases List.mem_cons.mp hq with he | hm
    · subst he
      have ih := list_prod_bounds qs (fun y hy => h y (List.mem_cons_of_mem _ hy))
      exact mul_le_of_le_one_right (h q (List.mem_cons_self _ _)).1 ih.2
    · have ih := list_prod_le_mem qs q hm (fun y hy => h y (List.mem_cons_of_mem _ hy))
      have h0 := list_prod_bounds qs (fun y hy => h y (List.mem_cons_of_mem _ hy))
      calc x * qs.prod ≤ 1 * qs.prod :=
            mul_le_mul_of_nonneg_right (h x (List.mem_cons_self _ _)).2 h0.1
        _ = qs.prod := one_mul _
        _ ≤ q := ih

theorem factors_bounds {d : Dist} (hb : ∀ lp ∈ d, 0 ≤ lp.2 ∧ lp.2 ≤ 1) (c : String) :
    ∀ q ∈ (d.filter (fun lp => ft_to_toplevel lp.1 = c)).map (fun lp => 1 - lp.2),
      0 ≤ q ∧ q ≤ 1 := by
  intro q hq
  obtain ⟨lp, hlp, rfl⟩ := List.mem_map.mp hq
  have hbp := hb lp (List.mem_filter.mp hlp).1
  constructor <;> linarith [hbp.1, hbp.2]

theorem prodUnder_mono : ∀ {d d' : Dist},
    List.Forall₂ (fun a b => a.1 = b.1 ∧ a.2 ≤ b.2) d d' →
    (∀ lp ∈ d, 0 ≤ lp.2 ∧ lp.2 ≤ 1) → (∀ lp ∈ d', 0 ≤ lp.2 ∧ lp.2 ≤ 1) →
    ∀ c, 0 ≤ prodUnder c d' ∧ prodUnder c d' ≤ prodUnder c d
  | _, _, .nil, _, _, _ => by simp [prodUnder_nil]
  | a :: d, b :: d', .cons hab htail, hb, hb', c => by
    obtain ⟨hlbl, hle⟩ := hab
    have ih := prodUnder_mono htail (fun lp h => hb lp (List.mem_cons_of_mem _ h))
      (fun lp h => hb' lp (List.mem_cons_of_mem _ h)) c
    have ha := hb a (List.mem_cons_self _ _)
    have hbq := hb' b (List.mem_cons_self _ _)
    rw [prodUnder_cons, prodUnder_cons, ← hlbl]
    by_cases hc : ft_to_toplevel a.1 = c
    · rw [if_pos hc, if_pos hc]
      refine ⟨mul_nonneg (by linarith [hbq.2]) ih.1, ?_⟩
      exact mul_le_mul (by linarith) ih.2 ih.1 (by linarith [ha.2])
    · rw [if_neg hc, if_neg hc]
      exact ih

/-- C10: for every adjusted distribution with probabilities in `[0,1]`,
every aggregated top-level probability lies in `[0,1]`, is at least every
(hence the maximum) fine-label probability of its category, and
aggregation is monotone: raising fine-label probabilities pointwise never
lowers the category's aggregated probability. -/
theorem wd_C10_aggregate_bounds_mono (d d' : Dist) (c : String) (v v' : ℚ)
    (hb : ∀ lp ∈ d, 0 ≤ lp.2 ∧ lp.2 ≤ 1) (hb' : ∀ lp ∈ d', 0 ≤ lp.2 ∧ lp.2 ≤ 1)
    (hrel : List.Forall₂ (fun a b => a.1 = b.1 ∧ a.2 ≤ b.2) d d')
    (hv : dlookup (aggregate d) c = some v) (hv' : dlookup (aggregate d') c = some v') :
    (0 ≤ v ∧ v ≤ 1) ∧ (∀ lp ∈ d, ft_to_toplevel lp.1 = c → lp.2 ≤ v) ∧ v ≤ v' := by
  rw [aggregate_dlookup] at hv hv'
  by_cases hm : c ∈ d.map (fun lp => ft_to_toplevel lp.1)
  · rw [if_pos hm] at hv
    have hveq := (Option.some.inj hv).symm
    by_cases hm' : c ∈ d'.map (fun lp => ft_to_toplevel lp.1)
    · rw [if_pos hm'] at hv'
      have hveq' := (Option.some.inj hv').symm
      have hpb := list_prod_bounds _ (factors_bounds hb c)
      have hmono := prodUnder_mono hrel hb hb' c
      refine ⟨⟨?_, ?_⟩, ?_, ?_⟩
      · rw [hveq]; unfold prodUnder at hpb ⊢; linarith [hpb.2]
      · rw [hveq]; unfold prodUnder at hpb ⊢; linarith [hpb.1]
      · intro lp hlp htop
        have hqmem : (1 - lp.2) ∈
            (d.filter (fun lp => ft_to_toplevel lp.1 = c)).map (fun lp => 1 - lp.2) :=
          List.mem_map.mpr ⟨lp, List.mem_filter.mpr ⟨hlp, by simp [htop]⟩, rfl⟩
        have hle := list_prod_le_mem _ _ hqmem (factors_bounds hb c)
        rw [hveq]; unfold prodUnder; linarith [hle]
      · rw [hveq, hveq']; linarith [hmono.2]
    · rw [if_neg hm'] at hv'; cases hv'
  · rw [if_neg hm] at hv; cases hv

set_option maxRecDepth 4000 in
theorem wd_C10_witness :
    ((0:ℚ) ≤ 1/2 ∧ (1/2:ℚ) ≤ 1) ∧
      (∀ lp ∈ [("__label__STEM.Technology", (1/2:ℚ))],
          ft_to_toplevel lp.1 = "STEM" → lp.2 ≤ 1/2) ∧
      (1/2:ℚ) ≤ 3/5 :=
  wd_C10_aggregate_bounds_mono [("__label__STEM.Technology", 1/2)]
    [("__label__STEM.Technology", 3/5)] "STEM" (1/2) (3/5)
    (by intro lp hlp; rw [List.mem_singleton] at hlp; subst hlp; norm_num)
    (by intro lp hlp; rw [List.mem_singleton] at hlp; subst hlp; norm_num)
    (List.Forall₂.cons ⟨rfl, by norm_num⟩ List.Forall₂.nil)
    (by simp +decide [aggregate, aggStep, dictSet, dlookup, ft_to_toplevel, removeLabelTags,
          takeUntilDot])
    (by simp +decide [aggregate, aggStep, dictSet, dlookup, ft_to_toplevel, removeLabelTags,
          takeUntilDot])

/-! ### Sorting lemmas -/

theorem mem_insertDesc (a x : String × ℚ) (l : Dist) :
    a ∈ insertDesc x l ↔ a = x ∨ a ∈ l := by
  induction l with
  | nil => simp [insertDesc]
  | cons y ys ih =>
    by_cases h : x.2 ≤ y.2
    · simp only [insertDesc, if_pos h, List.mem_cons, ih]
      tauto
    · simp only [insertDesc, if_neg h, List.mem_cons]

theorem mem_sortDescByVal (a : String × ℚ) (l : Dist) :
    a ∈ sortDescByVal l ↔ a ∈ l := by
  induction l with
  | nil => simp [sortDescByVal]
  | cons x xs ih => simp [sortDescByVal, mem_insertDesc, ih]

/-! ### Claim C6 -/

/-- C6 counterexample: with threshold 0.5, an item whose adjusted
probability is 0.50004 — strictly above the threshold by a positive
epsilon — is excluded from the output, because the comparison is made
against the 4-decimal rounding 0.5, not the adjusted value. -/
theorem wd_C6_counterexample :
    adjust [("__label__A", 0.50004)] false false true = some [("__label__A", 0.50004)] ∧
    ((0.50004:ℚ) > 0.5) ∧
    thresholdFilter 0.5 (sortedRes [("__label__A", 0.50004)]) = [] := by
  refine ⟨rfl, by norm_num, ?_⟩
  have hr : roundTo4 (0.50004 : ℚ) = 1/2 := by
    rw [roundTo4, show (0.50004 : ℚ) * 10000 = 25002/5 by norm_num, roundHalfEven]
    norm_num
  rw [sortedRes]
  simp only [sortDescByVal, insertDesc, List.map_cons, List.map_nil, hr]
  rw [thresholdFilter, if_pos (by norm_num)]
  have hlt : ¬((0.5:ℚ) < 1/2) := by norm_num
  simp only [List.filter, decide_eq_false hlt]

/-- C6 amended: for thresholds strictly greater than 0 the writer retains
exactly the entries whose ROUNDED (4-decimal) probability is strictly
greater than the threshold (a rounded probability equal to the threshold
is excluded); threshold 0 keeps every entry; and every emitted entry
carries the 4-decimal rounding of some adjusted entry's probability, with
the label tag stripped. -/
theorem wd_C6_threshold_on_rounded (adjusted : Dist) (t : ℚ) :
    (t > 0 → ∀ e, e ∈ thresholdFilter t (sortedRes adjusted)
        ↔ e ∈ sortedRes adjusted ∧ t < e.2) ∧
    thresholdFilter 0 (sortedRes adjusted) = sortedRes adjusted ∧
    (∀ e ∈ sortedRes adjusted, ∃ lp, lp ∈ adjusted
        ∧ e = (stripLabelTag lp.1, roundTo4 lp.2)) := by
  refine ⟨fun ht e => ?_, ?_, fun e he => ?_⟩
  · rw [thresholdFilter, if_pos ht]
    simp [List.mem_filter]
  · rw [thresholdFilter, if_neg (by norm_num)]
  · rw [sortedRes] at he
    obtain ⟨lp, hlp, rfl⟩ := List.mem_map.mp he
    exact ⟨lp, (mem_sortDescByVal _ _).mp hlp, rfl⟩

theorem wd_C6_witness :
    ("A", (1:ℚ)) ∈ thresholdFilter (1/2) (sortedRes [("__label__A", 1)]) := by
  have h := (wd_C6_threshold_on_rounded [("__label__A", 1)] (1/2)).1 (by norm_num)
    ("A", (1:ℚ))
  refine h.mpr ⟨?_, by norm_num⟩
  have hr : roundTo4 (1:ℚ) = 1 := by
    rw [roundTo4, roundHalfEven]
    norm_num
  rw [sortedRes]
  simp only [sortDescByVal, insertDesc, List.map_cons, List.map_nil, hr]
  exact List.mem_singleton.mpr (Prod.ext (by decide) rfl)

/-! ### Tokenization lemmas -/

theorem wsTokensAux_append_space :
    ∀ (l1 l2 cur : List Char),
      wsTokensAux (l1 ++ ' ' :: l2) cur = wsTokensAux l1 cur ++ wsTokensAux l2 []
  | [], l2, cur => by
    by_cases h : cur.isEmpty
    · simp [wsTokensAux, h]
    · simp [wsTokensAux, h]
  | c :: cs, l2, cur => by
    by_cases h : c = ' '
    · subst h
      by_cases hcur : cur.isEmpty
      · simp [wsTokensAux, hcur, wsTokensAux_append_space cs l2 []]
      · simp [wsTokensAux, hcur, wsTokensAux_append_space cs l2 []]
    · simp [wsTokensAux, h, wsTokensAux_append_space cs l2 (c :: cur)]

theorem wsTokens_append_space (s1 s2 : String) :
    wsTokens (s1 ++ " " ++ s2) = wsTokens s1 ++ wsTokens s2 := by
  have hdata : (s1 ++ " " ++ s2).data = s1.data ++ ' ' :: s2.data := by
    rw [String.data_append, String.data_append]
    simp
  rw [wsTokens, hdata, wsTokensAux_append_space]
  rfl

theorem wsTokens_joinSp : ∀ (xs : List String),
    wsTokens (joinSp xs) = (xs.map wsTokens).flatten
  | [] => by simp [joinSp]; rfl
  | [x] => by simp [joinSp]
  | x :: y :: rest => by
    rw [joinSp, wsTokens_append_space, wsTokens_joinSp (y :: rest)]
    simp

theorem wsTokens_format (l : List (List String)) :
    wsTokens (tuple_to_ft_format l) = l.flatMap (fun t => wsTokens (joinSp t)) := by
  rw [tuple_to_ft_format, wsTokens_joinSp, List.flatMap_def, List.map_map]
  rfl

/-! ### Claim C9 -/

/-- C9: whenever the external classifier is invariant under permutation of
the whitespace-separated tokens of its input string, any two orderings the
claim-tuple shuffle can choose produce the same `OutputRecord` — the
shuffle never affects the emitted result. -/
theorem wd_C9_shuffle_invariant (predict : String → Dist)
    (hp : ∀ s1 s2, List.Perm (wsTokens s1) (wsTokens s2) → predict s1 = predict s2)
    (claims : List (String × List Statement)) (o1 o2 : List (List String))
    (h1 : List.Perm o1 (finalTuples claims)) (h2 : List.Perm o2 (finalTuples claims))
    (threshold : ℚ) (qid : Option String) (titles : List (String × Option String))
    (disamb_list human has_coords : Bool) :
    processItem predict threshold qid titles o1 disamb_list human has_coords
      = processItem predict threshold qid titles o2 disamb_list human has_coords := by
  have ho : List.Perm o1 o2 := h1.trans h2.symm
  have hperm : List.Perm (wsTokens (tuple_to_ft_format o1))
      (wsTokens (tuple_to_ft_format o2)) := by
    rw [wsTokens_format, wsTokens_format]
    exact List.Perm.flatMap_right _ ho
  unfold processItem
  rw [hp _ _ hperm]

theorem wd_C9_witness :
    processItem (fun _ => [("__label__STEM.Technology", 1)]) (1/2) (some "Q42") []
      [["P31", "Q5"], ["P625"]] false false true
    = processItem (fun _ => [("__label__STEM.Technology", 1)]) (1/2) (some "Q42") []
      [["P625"], ["P31", "Q5"]] false false true :=
  wd_C9_shuffle_invariant (fun _ => [("__label__STEM.Technology", 1)]) (fun _ _ _ => rfl)
    [("P31", [{ type := some "statement", datatype := some "wikibase-item",
                valueId := some "Q5" }]),
     ("P625", [])]
    _ _ (by decide) (by decide) _ _ _ _ _ _

end WdTopics
